import Mathlib

/-!
Verification of the Move Disambiguation and Feedback Engine of an
electronic-chessboard controller.

The development shallowly embeds the Rust sources:
  * `src/game_logic.rs`  — the game engine (`GameEngine`, `tick`, `process_moves`),
  * `src/feedback.rs`    — the feedback computer (`compute_feedback` and helpers),
  * `src/mock/script.rs` — the scripted mock sensor (script parsing, toggling).

The chess rules library (the `shakmaty` crate) is an external collaborator of
the repository; the engine consumes it through a narrow interface (legal moves,
move application, occupancy, checkers, king lookup).  It is embedded here as a
structure of operations (`ChessRules`), and concrete scenario positions are
modelled from the specification of the rules of chess where a claim needs them.
-/

/-- A chess square, numbered as in the sources: `a1 = 0`, `b1 = 1`, …, `h8 = 63`
(index = rank * 8 + file). -/
abbrev Square := Fin 64

/-- A bitboard: a set of squares.  The Rust `Bitboard` is a 64-bit integer whose
bit `i` indicates presence at square `i`; it is embedded as a finite set. -/
abbrev Bitboard := Finset Square

/-- File (0 = a … 7 = h) of a square. -/
def Square.file (sq : Square) : Nat := sq.val % 8

/-- Rank (0 = rank 1 … 7 = rank 8) of a square. -/
def Square.rank (sq : Square) : Nat := sq.val / 8

/-- `Square::from_coords(file, rank)`: build a square from file and rank. -/
def mkSquare (file rank : Nat) : Square :=
  ⟨(rank * 8 + file) % 64, Nat.mod_lt _ (by norm_num)⟩

/-- The squares of a bitboard in ascending order (the iteration order of the
Rust `Bitboard`, which walks the set bits from the lowest). -/
def bbAscList (b : Bitboard) : List Square :=
  (List.finRange 64).filter (fun sq => decide (sq ∈ b))

/-- `Bitboard::first`: the lowest square of the bitboard, if any. -/
def bbFirst (b : Bitboard) : Option Square :=
  (bbAscList b).head?

/-- `Bitboard::single_square`: the unique square when the bitboard holds exactly
one square, `none` otherwise. -/
def singleSquare (b : Bitboard) : Option Square :=
  if b.card = 1 then bbFirst b else none

/-- Render a square as algebraic notation, e.g. square 28 is `"e4"`
(mirrors `Square`'s `Display`). -/
def squareToString (sq : Square) : String :=
  String.mk [Char.ofNat ('a'.toNat + sq.file), Char.ofNat ('1'.toNat + sq.rank)]

/-- Piece color. -/
inductive Color where
  | white
  | black
deriving DecidableEq, Repr

/-- `Color::other`. -/
def Color.other : Color → Color
  | .white => .black
  | .black => .white

/-- Piece role. -/
inductive Role where
  | pawn
  | knight
  | bishop
  | rook
  | queen
  | king
deriving DecidableEq, Repr

/-- A colored piece. -/
structure Piece where
  color : Color
  role : Role
deriving DecidableEq, Repr

/-- The rules library's `Move` type: a tagged variant with the shapes
`Normal`, `EnPassant`, `Castle` and `Put`.  `Normal` carries the moving role,
origin, captured role (if any), destination and promotion role (if any);
`Castle` carries the king's and the rook's origin squares. -/
inductive Move where
  | normal (role : Role) (src : Square) (capture : Option Role) (dst : Square)
      (promotion : Option Role)
  | enPassant (src dst : Square)
  | castle (king rook : Square)
  | put (role : Role) (dst : Square)
deriving DecidableEq, Repr

/-- `Move::to()`.  For a castling move this is the *rook's origin square*,
exactly as in the rules library. -/
def Move.to : Move → Square
  | .normal _ _ _ dst _ => dst
  | .enPassant _ dst => dst
  | .castle _ rook => rook
  | .put _ dst => dst

/-- `Move::from()`: the origin square (the king's square for castling);
`none` only for `Put`. -/
def Move.fromSq : Move → Option Square
  | .normal _ src _ _ _ => some src
  | .enPassant src _ => some src
  | .castle king _ => some king
  | .put _ _ => none

/-- `Move::is_capture()`: a `Normal` move with a captured role, or en passant. -/
def Move.isCapture : Move → Bool
  | .normal _ _ cap _ _ => cap.isSome
  | .enPassant _ _ => true
  | .castle _ _ => false
  | .put _ _ => false

/-- `Move::is_en_passant()`. -/
def Move.isEnPassant : Move → Bool
  | .enPassant _ _ => true
  | _ => false

/-- `Move::promotion()`. -/
def Move.promotion : Move → Option Role
  | .normal _ _ _ _ promo => promo
  | _ => none

/-! ## `src/feedback.rs` -/

/-- Check status information for feedback display (`CheckInfo`). -/
structure CheckInfo where
  king_square : Square
  checkers : Bitboard
deriving DecidableEq

/-- Type of visual feedback for an individual square (`SquareFeedback`). -/
inductive SquareFeedback where
  | destination
  | capture
  | origin
  | check
  | checker
deriving DecidableEq, Repr

/-- The per-square feedback map (`BoardFeedback`): a total assignment of an
optional feedback tag to each of the 64 squares. -/
structure BoardFeedback where
  squares : Square → Option SquareFeedback

/-- `BoardFeedback::new()`: the empty feedback map. -/
def BoardFeedback.new : BoardFeedback := ⟨fun _ => none⟩

/-- `BoardFeedback::get`. -/
def BoardFeedback.get (fb : BoardFeedback) (sq : Square) : Option SquareFeedback :=
  fb.squares sq

/-- `BoardFeedback::set`. -/
def BoardFeedback.set (fb : BoardFeedback) (sq : Square) (f : SquareFeedback) :
    BoardFeedback :=
  ⟨Function.update fb.squares sq (some f)⟩

/-- `BoardFeedback::is_empty`. -/
def BoardFeedback.isEmpty (fb : BoardFeedback) : Bool :=
  decide (∀ sq, fb.squares sq = none)

/-- `classify_move`: a capture is shown as `Capture`, anything else as
`Destination`; the marked square is `mv.to()`. -/
def classifyMove (mv : Move) : Square × SquareFeedback :=
  if mv.isCapture then (mv.to, .capture) else (mv.to, .destination)

/-- `captures_square`: does `mv` capture a piece standing on `captured_sq`?
For a normal capture the captured square is `to`; for en passant it is the
square with the destination's file and the origin's rank. -/
def capturesSquare (mv : Move) (captured_sq : Square) : Bool :=
  match mv with
  | .normal _ _ (some _) dst _ => captured_sq = dst
  | .enPassant src dst => mkSquare dst.file src.rank = captured_sq
  | _ => false

/-- `show_destinations_for`: mark the lifted square as `Origin` and the
`to()` square of every legal move out of it as `Capture`/`Destination`. -/
def showDestinationsFor (legal_moves : List Move) (src : Square) : BoardFeedback :=
  let fb := BoardFeedback.new.set src .origin
  legal_moves.foldl
    (fun fb mv =>
      if mv.fromSq = some src then
        let (sq, kind) := classifyMove mv
        fb.set sq kind
      else fb)
    fb

/-- `show_capture_options`: for every legal move capturing on the removed
square, mark its destination and (when present) its origin. -/
def showCaptureOptions (legal_moves : List Move) (captured_sq : Square) :
    BoardFeedback :=
  legal_moves.foldl
    (fun fb mv =>
      if capturesSquare mv captured_sq then
        let fb := fb.set mv.to .destination
        match mv.fromSq with
        | some src => fb.set src .origin
        | none => fb
      else fb)
    BoardFeedback.new

/-- `show_capture_completion`: own piece lifted from `src` and opponent piece
removed from `captured_sq`; mark the completion destinations. -/
def showCaptureCompletion (legal_moves : List Move) (src captured_sq : Square) :
    BoardFeedback :=
  let fb := BoardFeedback.new.set src .origin
  legal_moves.foldl
    (fun fb mv =>
      if mv.fromSq = some src && capturesSquare mv captured_sq then
        fb.set mv.to .destination
      else fb)
    fb

/-- `show_check_feedback`: mark the king square `Check` and every checker
square `Checker`. -/
def showCheckFeedback (check_info : CheckInfo) : BoardFeedback :=
  let fb := BoardFeedback.new.set check_info.king_square .check
  (bbAscList check_info.checkers).foldl (fun fb sq => fb.set sq .checker) fb

/-! ## `src/game_logic.rs` -/

/-- Per-tick game state snapshot (`GameState` in `game_logic.rs`). -/
structure GameState where
  legal_moves : List Move
  lifted_piece : Option Square
  captured_piece : Option Square
  king_square : Square
  checkers : Bitboard
deriving DecidableEq

/-- `GameState`'s `FeedbackSource::check_info` implementation: `none` when the
checkers bitboard is empty. -/
def GameState.checkInfo (s : GameState) : Option CheckInfo :=
  if s.checkers = ∅ then none
  else some ⟨s.king_square, s.checkers⟩

/-- `compute_feedback` from `src/feedback.rs`, applied to a `GameState`
feedback source. -/
def computeFeedback (s : GameState) : BoardFeedback :=
  match s.captured_piece, s.lifted_piece with
  | none, some src => showDestinationsFor s.legal_moves src
  | some dst, none => showCaptureOptions s.legal_moves dst
  | some dst, some src => showCaptureCompletion s.legal_moves src dst
  | none, none =>
    match s.checkInfo with
    | some check_info => showCheckFeedback check_info
    | none => BoardFeedback.new

/-- The interface the engine consumes from the external chess rules library
(spec §6, realised by the `shakmaty` crate): enumerate legal moves, apply a
legal move, occupancy bitboards, checkers, lowest own-king square, and piece
lookup.  The engine is generic in the position type `Pos`. -/
structure ChessRules (Pos : Type) where
  legalMoves : Pos → List Move
  play : Pos → Move → Pos
  occupied : Pos → Bitboard
  us : Pos → Bitboard
  them : Pos → Bitboard
  checkers : Pos → Bitboard
  kingOfUs : Pos → Option Square
  pieceAt : Pos → Square → Option Piece

/-- The engine's persistent state (`GameEngine`): the logical chess position
and the last physical occupancy reported by the sensors. -/
structure GameEngine (Pos : Type) where
  position : Pos
  last_bitboard : Bitboard

/-- `GameEngine::from_position`: `last_bitboard` is initialised from the
position's occupied set. -/
def GameEngine.fromPosition {Pos : Type} (R : ChessRules Pos) (position : Pos) :
    GameEngine Pos :=
  { position := position, last_bitboard := R.occupied position }

/-- The promotion filter in `process_moves`: reject `mv` when its promotion
role is set and is not `Queen`
(`mv.promotion().is_some_and(|role| role != Role::Queen)`). -/
def promoRejects (mv : Move) : Bool :=
  match mv.promotion with
  | some role => role ≠ Role.queen
  | none => false

/-- The capture-placement pre-filter in `process_moves`: reject `mv` when it is
a capture, the placed bitboard's *lowest* square (`placed.first()`) is not
`Some(mv.to())`, and `mv` is not en passant
(`mv.is_capture() && Some(mv.to()) != placed.first() && !mv.is_en_passant()`). -/
def captureRejects (placed : Bitboard) (mv : Move) : Bool :=
  mv.isCapture && some mv.to ≠ bbFirst placed && !mv.isEnPassant

/-- The loop body's acceptance test for a candidate move: not filtered out, and
the occupancy after playing it equals the observed bitboard. -/
def candidateOk {Pos : Type} (R : ChessRules Pos) (pos : Pos) (placed curr : Bitboard)
    (mv : Move) : Bool :=
  !promoRejects mv && !captureRejects placed mv &&
    decide (R.occupied (R.play pos mv) = curr)

/-- The first legal move accepted by the `process_moves` candidate loop, if
any (the loop commits the first candidate whose post-move occupancy equals the
observed bitboard). -/
def commitMove {Pos : Type} (R : ChessRules Pos) (pos : Pos) (placed curr : Bitboard) :
    Option Move :=
  (R.legalMoves pos).find? (candidateOk R pos placed curr)

/-- `GameEngine::process_moves`: short-circuit on an unchanged snapshot,
compute deltas, update `last_bitboard`, gate on `placed` empty unless exactly
two squares are missing relative to the *position's* occupancy, then commit the
first matching candidate. -/
def processMoves {Pos : Type} (R : ChessRules Pos) (e : GameEngine Pos)
    (current_bb : Bitboard) : GameEngine Pos :=
  if current_bb = e.last_bitboard then e
  else
    let placed := current_bb \ e.last_bitboard
    let expected := R.occupied e.position
    let lifted := expected \ current_bb
    -- last_bitboard is updated before the gate, in both outcomes below
    if placed = ∅ ∧ lifted.card ≠ 2 then
      { e with last_bitboard := current_bb }
    else
      match commitMove R e.position placed current_bb with
      | some mv => { position := R.play e.position mv, last_bitboard := current_bb }
      | none => { e with last_bitboard := current_bb }

/-- `GameEngine::tick`: process the snapshot, then build the `GameState`.
The Rust code looks the own king up with
`self.position.our(Role::King).first().expect("king must exist")`; the
`.expect` panic is modelled by returning `none` for the state. -/
def tickO {Pos : Type} (R : ChessRules Pos) (e : GameEngine Pos)
    (current_bb : Bitboard) : GameEngine Pos × Option GameState :=
  let e' := processMoves R e current_bb
  let lifted := R.us e'.position \ current_bb
  let captured := R.them e'.position \ current_bb
  match R.kingOfUs e'.position with
  | none => (e', none)
  | some king =>
    (e', some
      { legal_moves := R.legalMoves e'.position
        lifted_piece := singleSquare lifted
        captured_piece := singleSquare captured
        king_square := king
        checkers := R.checkers e'.position })

/-- Feeding a finite snapshot sequence to the engine, one `tick` at a time
(only the committed position and `last_bitboard` persist across ticks). -/
def runEngine {Pos : Type} (R : ChessRules Pos) (e : GameEngine Pos)
    (snaps : List Bitboard) : GameEngine Pos :=
  snaps.foldl (processMoves R) e

/-- One legal-move step between positions: `q` is the result of playing some
legal move of `p`. -/
def LegalStep {Pos : Type} (R : ChessRules Pos) (p q : Pos) : Prop :=
  ∃ mv ∈ R.legalMoves p, q = R.play p mv

/-! ## `src/mock/script.rs` -/

/-- Error when parsing or executing a board script (`ParseError`). -/
inductive ParseError where
  | invalidSquare (token : String)
  | missingColor (square : String)
  | overlappingSquares (squares : String)
deriving DecidableEq, Repr

/-- A parsed batch entry: a square to toggle and an optional color. -/
abbrev BatchEntry := Square × Option Color

/-- Parse a two-character square token body, e.g. `['e', '2']`
(`str::parse::<Square>`: file `a`–`h`, rank `1`–`8`). -/
def parseSquareChars (cs : List Char) : Option Square :=
  match cs with
  | [f, r] =>
    if 'a' ≤ f ∧ f ≤ 'h' ∧ '1' ≤ r ∧ r ≤ '8' then
      some (mkSquare (f.toNat - 'a'.toNat) (r.toNat - '1'.toNat))
    else none
  | _ => none

/-- Strip the optional leading `'W'`/`'B'` color marker from a token
(the head of `flush_token`). -/
def stripColor (tok : List Char) : Option Color × List Char :=
  match tok with
  | 'W' :: rest => (some .white, rest)
  | 'B' :: rest => (some .black, rest)
  | _ => (none, tok)

/-- Does the token start with a `'W'` or `'B'` color marker?
(`has_color_prefix` in `parse_script`.) -/
def hasColorPfx (tok : List Char) : Bool :=
  tok.head? == some 'W' || tok.head? == some 'B'

/-- State of the `parse_script` character loop: the token being accumulated,
the completed batches, and the batch currently being filled (the Rust code
keeps the current batch as the last element of its batch vector). -/
structure PState where
  token : List Char
  doneBatches : List (List BatchEntry)
  curBatch : List BatchEntry
deriving DecidableEq

/-- `flush_token`: parse the accumulated token (after stripping the optional
color marker) and append the entry to the current batch; an unparsable token
fails with `InvalidSquare`. -/
def flushToken (st : PState) : Except ParseError PState :=
  if st.token = [] then .ok st
  else
    match parseSquareChars (stripColor st.token).2 with
    | none => .error (.invalidSquare (String.mk st.token))
    | some sq =>
      .ok { token := [], doneBatches := st.doneBatches,
            curBatch := st.curBatch ++ [(sq, (stripColor st.token).1)] }

/-- One character of the `parse_script` loop: `'.'` flushes the token and
closes the current batch, whitespace flushes the token, any other character
extends the token and flushes it once it reaches its expected length
(3 with a color marker, 2 without). -/
def stepChar (st : PState) (ch : Char) : Except ParseError PState :=
  if ch = '.' then do
    let st' ← flushToken st
    pure { token := [], doneBatches := st'.doneBatches ++ [st'.curBatch], curBatch := [] }
  else if ch.isWhitespace then
    flushToken st
  else
    let tok := st.token ++ [ch]
    let expectedLen : Nat := if hasColorPfx tok then 3 else 2
    if tok.length = expectedLen then
      flushToken { st with token := tok }
    else
      .ok { st with token := tok }

/-- `parse_script`: run the character loop, flush the remaining token, and
drop empty batches. -/
def parseScript (script : String) : Except ParseError (List (List BatchEntry)) := do
  let st ← script.toList.foldlM stepChar ⟨[], [], []⟩
  let st ← flushToken st
  pure ((st.doneBatches ++ [st.curBatch]).filter (fun b => !b.isEmpty))

/-- Toggle a square's membership in a bitboard (`Bitboard::toggle`). -/
def bbToggle (b : Bitboard) (sq : Square) : Bitboard :=
  if sq ∈ b then b.erase sq else insert sq b

/-- Render a bitboard's squares joined by `", "`, in ascending square order
(the payload of `OverlappingSquares`). -/
def joinSquares (b : Bitboard) : String :=
  String.intercalate ", " ((bbAscList b).map squareToString)

/-- `check_overlap`: fail with `OverlappingSquares` when the two color
bitboards share a square. -/
def checkOverlap (white black : Bitboard) : Except ParseError Unit :=
  let overlap := white ∩ black
  if overlap = ∅ then .ok ()
  else .error (.overlappingSquares (joinSquares overlap))

/-- The scripted mock sensor (`ScriptedSensor`): per-color occupancy and the
queue of pending script batches. -/
structure ScriptedSensor where
  white : Bitboard
  black : Bitboard
  pending_batches : List (List BatchEntry)
deriving DecidableEq

/-- `ScriptedSensor::from_bitboards`. -/
def ScriptedSensor.fromBitboards (white black : Bitboard) :
    Except ParseError ScriptedSensor := do
  checkOverlap white black
  pure ⟨white, black, []⟩

/-- `ScriptedSensor::load_bitboards` (clears the pending queue). -/
def ScriptedSensor.loadBitboards (_s : ScriptedSensor) (white black : Bitboard) :
    Except ParseError ScriptedSensor := do
  checkOverlap white black
  pure ⟨white, black, []⟩

/-- `ScriptedSensor::push_script`: parse and append batches to the queue. -/
def ScriptedSensor.pushScript (s : ScriptedSensor) (script : String) :
    Except ParseError ScriptedSensor := do
  let batches ← parseScript script
  pure { s with pending_batches := s.pending_batches ++ batches }

/-- `ScriptedSensor::toggle_square`: infer the color from the occupied square
(the argument is then ignored); an empty square requires an explicit color,
otherwise `MissingColor`. -/
def ScriptedSensor.toggleSquare (s : ScriptedSensor) (sq : Square)
    (color : Option Color) : Except ParseError ScriptedSensor := do
  let c ←
    if sq ∈ s.white then Except.ok Color.white
    else if sq ∈ s.black then Except.ok Color.black
    else match color with
      | some c => Except.ok c
      | none => Except.error (ParseError.missingColor (squareToString sq))
  match c with
  | .white => pure { s with white := bbToggle s.white sq }
  | .black => pure { s with black := bbToggle s.black sq }

/-- `ScriptedSensor::tick`: execute the next pending batch (if any), returning
the new per-color positions together with the updated sensor. -/
def ScriptedSensor.tick (s : ScriptedSensor) :
    Except ParseError (Option (Bitboard × Bitboard) × ScriptedSensor) :=
  match s.pending_batches with
  | [] => .ok (none, s)
  | batch :: rest => do
    let s' ← batch.foldlM (fun acc (entry : BatchEntry) => acc.toggleSquare entry.1 entry.2)
      { s with pending_batches := rest }
    pure (some (s'.white, s'.black), s')

/-! ### The claim-side tokenization of a script

The error-taxonomy claim speaks of "a token of the script"; the tokens are
defined by the same character loop as `parse_script`, collected without being
parsed. -/

/-- Tokenizer state: the token being accumulated and the tokens produced. -/
structure TState where
  token : List Char
  toks : List (List Char)
deriving DecidableEq

/-- Flush the accumulated token into the token list (no parsing). -/
def tFlush (st : TState) : TState :=
  if st.token = [] then st else { token := [], toks := st.toks ++ [st.token] }

/-- One character of the tokenizer: same flush triggers as `stepChar`. -/
def tStep (st : TState) (ch : Char) : TState :=
  if ch = '.' then tFlush st
  else if ch.isWhitespace then tFlush st
  else
    let tok := st.token ++ [ch]
    let expectedLen : Nat := if hasColorPfx tok then 3 else 2
    if tok.length = expectedLen then tFlush { st with token := tok }
    else { st with token := tok }

/-- The tokens of a script: the character loop's flushed tokens, including the
final flush. -/
def tokenize (script : String) : List (List Char) :=
  (tFlush (script.toList.foldl tStep ⟨[], []⟩)).toks

/-- A token parses as a square after stripping the optional color marker. -/
def isValidSquareToken (tok : List Char) : Bool :=
  (parseSquareChars (stripColor tok).2).isSome

/-! ## Concrete positions, modelled from the spec

The chess rules library itself is deliberately outside the repository (spec
§1/§6); the concrete scenario positions below are modelled from the
specification's FEN strings and the rules of chess. -/

-- Named squares used by the scenarios (index = rank * 8 + file, a1 = 0).
def sqE1 : Square := 4
def sqF1 : Square := 5
def sqG1 : Square := 6
def sqH1 : Square := 7
def sqE2 : Square := 12
def sqE4 : Square := 28
def sqD5 : Square := 35
def sqE5 : Square := 36
def sqD6 : Square := 43
def sqB7 : Square := 49
def sqB8 : Square := 57
def sqE8 : Square := 60

-- Piece abbreviations.
def wP : Piece := ⟨.white, .pawn⟩
def wN : Piece := ⟨.white, .knight⟩
def wB : Piece := ⟨.white, .bishop⟩
def wR : Piece := ⟨.white, .rook⟩
def wQ : Piece := ⟨.white, .queen⟩
def wK : Piece := ⟨.white, .king⟩
def bP : Piece := ⟨.black, .pawn⟩
def bN : Piece := ⟨.black, .knight⟩
def bB : Piece := ⟨.black, .bishop⟩
def bR : Piece := ⟨.black, .rook⟩
def bQ : Piece := ⟨.black, .queen⟩
def bK : Piece := ⟨.black, .king⟩

/-- Modelled from the spec: a concrete chess position as the rules library
exposes it — piece placement (association list), side to move, the legal moves
of the position, and the checkers bitboard.  The legal-move lists of the
scenario positions below are enumerated from the rules of chess. -/
structure PosData where
  board : List (Square × Piece)
  turn : Color
  moves : List Move
  checkersBB : Bitboard
deriving DecidableEq

/-- Remove the entry at a square. -/
def boardRemove (b : List (Square × Piece)) (sq : Square) : List (Square × Piece) :=
  b.filter (fun e => e.1 != sq)

/-- Place a piece at a square (replacing any occupant). -/
def boardSet (b : List (Square × Piece)) (sq : Square) (p : Piece) :
    List (Square × Piece) :=
  boardRemove b sq ++ [(sq, p)]

/-- Piece lookup on a board. -/
def pieceAtB (b : List (Square × Piece)) (sq : Square) : Option Piece :=
  (b.find? (fun e => e.1 == sq)).map (·.2)

/-- Modelled from the spec: application of a move to a position, per the rules
of chess (`Position::play_unchecked` of the rules library).  A normal move
moves (and possibly promotes) the mover and removes any captured piece; en
passant also clears the square with the destination's file and the origin's
rank; castling puts the king on the g/c-file and the rook on the f/d-file of
the king's rank.  The legal moves and checkers of the *resulting* position are
not consulted by any claim proved on these concrete scenarios except where
they are empty in the real position as well, and are modelled as empty. -/
def applyMove (p : PosData) (m : Move) : PosData :=
  let b := p.board
  let b' :=
    match m with
    | .normal role src _cap dst promo =>
      boardSet (boardRemove b src) dst ⟨p.turn, promo.getD role⟩
    | .enPassant src dst =>
      boardSet (boardRemove (boardRemove b src) (mkSquare dst.file src.rank)) dst
        ⟨p.turn, .pawn⟩
    | .castle king rook =>
      let kingside := king.file < rook.file
      let kingTo := mkSquare (if kingside then 6 else 2) king.rank
      let rookTo := mkSquare (if kingside then 5 else 3) king.rank
      boardSet (boardSet (boardRemove (boardRemove b king) rook) kingTo ⟨p.turn, .king⟩)
        rookTo ⟨p.turn, .rook⟩
    | .put role dst => boardSet b dst ⟨p.turn, role⟩
  { board := b', turn := p.turn.other, moves := [], checkersBB := ∅ }

/-- The rules-library interface realised over `PosData`. -/
def mkRules : ChessRules PosData where
  legalMoves p := p.moves
  play := applyMove
  occupied p := (p.board.map (·.1)).toFinset
  us p := ((p.board.filter (fun e => e.2.color == p.turn)).map (·.1)).toFinset
  them p := ((p.board.filter (fun e => e.2.color != p.turn)).map (·.1)).toFinset
  checkers p := p.checkersBB
  kingOfUs p :=
    bbFirst (((p.board.filter (fun e => e.2 == (⟨p.turn, .king⟩ : Piece))).map (·.1)).toFinset)
  pieceAt p sq := pieceAtB p.board sq

/-- Own pieces stand on occupied squares (`us ⊆ occupied` for `mkRules`). -/
theorem mkRules_us_subset (p : PosData) : mkRules.us p ⊆ mkRules.occupied p := by
  intro sq hsq
  simp only [mkRules, List.mem_toFinset, List.mem_map, List.mem_filter] at hsq ⊢
  obtain ⟨e, ⟨he, _⟩, rfl⟩ := hsq
  exact ⟨e, he, rfl⟩

/-- Opponent pieces stand on occupied squares (`them ⊆ occupied` for `mkRules`). -/
theorem mkRules_them_subset (p : PosData) : mkRules.them p ⊆ mkRules.occupied p := by
  intro sq hsq
  simp only [mkRules, List.mem_toFinset, List.mem_map, List.mem_filter] at hsq ⊢
  obtain ⟨e, ⟨he, _⟩, rfl⟩ := hsq
  exact ⟨e, he, rfl⟩

/-- Modelled from the spec: the position of FEN
`4k3/8/8/3pP3/8/8/8/4K3 w - d6 0 1` — white king e1 and pawn e5, black king e8
and pawn d5, white to move, en passant available on d6.  Its legal moves are
the five king steps, the pawn push e5–e6 and the en-passant capture e5xd6. -/
def epPos : PosData where
  board := [(sqE1, wK), (sqE5, wP), (sqD5, bP), (sqE8, bK)]
  turn := .white
  moves :=
    [ .normal .king 4 none 3 none    -- Ke1-d1
    , .normal .king 4 none 11 none   -- Ke1-d2
    , .normal .king 4 none 12 none   -- Ke1-e2
    , .normal .king 4 none 5 none    -- Ke1-f1
    , .normal .king 4 none 13 none   -- Ke1-f2
    , .normal .pawn 36 none 44 none  -- e5-e6
    , .enPassant 36 43 ]             -- e5xd6 en passant
  checkersBB := ∅

/-- The engine freshly constructed on `epPos`. -/
def epE0 : GameEngine PosData := GameEngine.fromPosition mkRules epPos

/-- First staged-en-passant snapshot: the white e5 pawn has been lifted and a
piece placed on d6 within one poll (occupancy `{e1, d5, d6, e8}`). -/
def epCurr1 : Bitboard := {4, 35, 43, 60}

/-- Second snapshot: the captured d5 pawn is removed (occupancy
`{e1, d6, e8}`). -/
def epCurr2 : Bitboard := {4, 43, 60}

/-- The engine after the first staged-en-passant tick (no move matches yet, so
only `last_bitboard` advances). -/
def epE1 : GameEngine PosData := processMoves mkRules epE0 epCurr1

/-- Modelled from the spec: the position of FEN
`r1bqkbnr/pPpppppp/2n5/8/8/8/PP1PPPPP/RNBQKBNR w KQkq - 0 1` — the promotion
scenario: the white b7 pawn may push to b8 or capture on a8/c8, promoting.
The legal moves are the 14 pawn advances, the 12 promotion variants (four
roles each for b8, xa8, xc8), the four knight moves and the three queen moves
along the freed d1–a4 diagonal. -/
def promoPos : PosData where
  board :=
    [ (0, wR), (1, wN), (2, wB), (3, wQ), (4, wK), (5, wB), (6, wN), (7, wR)
    , (8, wP), (9, wP), (11, wP), (12, wP), (13, wP), (14, wP), (15, wP)
    , (49, wP)
    , (48, bP), (50, bP), (51, bP), (52, bP), (53, bP), (54, bP), (55, bP)
    , (42, bN)
    , (56, bR), (58, bB), (59, bQ), (60, bK), (61, bB), (62, bN), (63, bR) ]
  turn := .white
  moves :=
    [ .normal .pawn 8 none 16 none,  .normal .pawn 8 none 24 none   -- a2
    , .normal .pawn 9 none 17 none,  .normal .pawn 9 none 25 none   -- b2
    , .normal .pawn 11 none 19 none, .normal .pawn 11 none 27 none  -- d2
    , .normal .pawn 12 none 20 none, .normal .pawn 12 none 28 none  -- e2
    , .normal .pawn 13 none 21 none, .normal .pawn 13 none 29 none  -- f2
    , .normal .pawn 14 none 22 none, .normal .pawn 14 none 30 none  -- g2
    , .normal .pawn 15 none 23 none, .normal .pawn 15 none 31 none  -- h2
    , .normal .pawn 49 none 57 (some .queen)                        -- b7-b8=Q
    , .normal .pawn 49 none 57 (some .rook)
    , .normal .pawn 49 none 57 (some .bishop)
    , .normal .pawn 49 none 57 (some .knight)
    , .normal .pawn 49 (some .rook) 56 (some .queen)                -- b7xa8=Q
    , .normal .pawn 49 (some .rook) 56 (some .rook)
    , .normal .pawn 49 (some .rook) 56 (some .bishop)
    , .normal .pawn 49 (some .rook) 56 (some .knight)
    , .normal .pawn 49 (some .bishop) 58 (some .queen)              -- b7xc8=Q
    , .normal .pawn 49 (some .bishop) 58 (some .rook)
    , .normal .pawn 49 (some .bishop) 58 (some .bishop)
    , .normal .pawn 49 (some .bishop) 58 (some .knight)
    , .normal .knight 1 none 16 none, .normal .knight 1 none 18 none  -- Nb1
    , .normal .knight 6 none 21 none, .normal .knight 6 none 23 none  -- Ng1
    , .normal .queen 3 none 10 none                                   -- Qd1-c2
    , .normal .queen 3 none 17 none                                   -- Qd1-b3
    , .normal .queen 3 none 24 none ]                                 -- Qd1-a4
  checkersBB := ∅

/-- Per-color sensor bitboards of `promoPos` (white side). -/
def promoWhite : Bitboard := {0, 1, 2, 3, 4, 5, 6, 7, 8, 9, 11, 12, 13, 14, 15, 49}

/-- Per-color sensor bitboards of `promoPos` (black side). -/
def promoBlack : Bitboard :=
  {42, 48, 50, 51, 52, 53, 54, 55, 56, 58, 59, 60, 61, 62, 63}

/-- The engine freshly constructed on `promoPos`. -/
def promoE0 : GameEngine PosData := GameEngine.fromPosition mkRules promoPos

/-- The snapshot after the script batch `b7 Wb8`: the b7 pawn is lifted and a
white piece placed on the empty b8. -/
def promoCurr : Bitboard :=
  {0, 1, 2, 3, 4, 5, 6, 7, 8, 9, 11, 12, 13, 14, 15, 57
  , 42, 48, 50, 51, 52, 53, 54, 55, 56, 58, 59, 60, 61, 62, 63}

/-- The combined occupied bitboard of FEN
`rnbqkbnr/ppp1pppp/8/3p4/4P3/8/PPPP1PPP/RNBQKBNR w KQkq - 0 1`
(white pawn on e4, black pawn on d5; e2 and d7 empty). -/
def capOcc : Bitboard :=
  {0, 1, 2, 3, 4, 5, 6, 7, 8, 9, 10, 11, 13, 14, 15, 28
  , 35, 48, 49, 50, 52, 53, 54, 55, 56, 57, 58, 59, 60, 61, 62, 63}

/-- The white sensor bitboard of the capture-scenario FEN. -/
def capWhite : Bitboard := {0, 1, 2, 3, 4, 5, 6, 7, 8, 9, 10, 11, 13, 14, 15, 28}

/-- The black sensor bitboard of the capture-scenario FEN. -/
def capBlack : Bitboard :=
  {35, 48, 49, 50, 52, 53, 54, 55, 56, 57, 58, 59, 60, 61, 62, 63}

/-- Modelled from the spec: the legal moves of FEN
`rnbqkbnr/pppppppp/8/8/8/5NP1/PPPPPPBP/RNBQK2R w KQkq - 0 1` (white may castle
kingside).  Against this full move list the feedback of a lifted king is
examined. -/
def castleMoves : List Move :=
  [ .normal .pawn 8 none 16 none,  .normal .pawn 8 none 24 none    -- a2
  , .normal .pawn 9 none 17 none,  .normal .pawn 9 none 25 none    -- b2
  , .normal .pawn 10 none 18 none, .normal .pawn 10 none 26 none   -- c2
  , .normal .pawn 11 none 19 none, .normal .pawn 11 none 27 none   -- d2
  , .normal .pawn 12 none 20 none, .normal .pawn 12 none 28 none   -- e2
  , .normal .pawn 22 none 30 none                                  -- g3-g4
  , .normal .pawn 15 none 23 none, .normal .pawn 15 none 31 none   -- h2
  , .normal .knight 1 none 16 none, .normal .knight 1 none 18 none -- Nb1
  , .normal .knight 21 none 27 none, .normal .knight 21 none 36 none
  , .normal .knight 21 none 38 none, .normal .knight 21 none 31 none
  , .normal .knight 21 none 6 none                                 -- Nf3
  , .normal .bishop 14 none 5 none, .normal .bishop 14 none 23 none -- Bg2
  , .normal .rook 7 none 6 none, .normal .rook 7 none 5 none       -- Rh1
  , .normal .king 4 none 5 none                                    -- Ke1-f1
  , .castle 4 7 ]                                                  -- O-O

/-- The game state with the white king lifted from e1 in the castling
position: no capture in progress, king e1 lifted, no check. -/
def castleGs : GameState where
  legal_moves := castleMoves
  lifted_piece := some sqE1
  captured_piece := none
  king_square := sqE1
  checkers := ∅

/-! ## Helper lemmas -/

/-- Reading a feedback map after a `set`. -/
theorem BoardFeedback.get_set (fb : BoardFeedback) (sq' : Square) (t' : SquareFeedback)
    (sq : Square) :
    (fb.set sq' t').get sq = if sq = sq' then some t' else fb.get sq := by
  simp [BoardFeedback.set, BoardFeedback.get, Function.update_apply]

/-- Tags written by a feedback fold: if every step only writes tags satisfying
`P` (or preserves the map at the read square), the property of the initial map
is preserved. -/
theorem foldl_get_tags {β : Type} (P : SquareFeedback → Prop) (l : List β)
    (step : BoardFeedback → β → BoardFeedback)
    (hstep : ∀ fb b sq t, (step fb b).get sq = some t → fb.get sq = some t ∨ P t)
    (fb0 : BoardFeedback) (h0 : ∀ sq t, fb0.get sq = some t → P t) :
    ∀ sq t, (l.foldl step fb0).get sq = some t → P t := by
  induction l generalizing fb0 with
  | nil => exact h0
  | cons b rest ih =>
    intro sq t h
    refine ih (step fb0 b) (fun sq' t' h' => ?_) sq t h
    rcases hstep fb0 b sq' t' h' with h'' | h''
    · exact h0 sq' t' h''
    · exact h''

/-- A committed candidate is a legal move that passed every filter. -/
theorem commitMove_spec {Pos : Type} {R : ChessRules Pos} {pos : Pos}
    {placed curr : Bitboard} {mv : Move}
    (h : commitMove R pos placed curr = some mv) :
    mv ∈ R.legalMoves pos ∧ candidateOk R pos placed curr mv = true :=
  ⟨List.mem_of_find?_eq_some h, List.find?_some h⟩

/-- An accepted candidate's post-move occupancy equals the observed bitboard. -/
theorem candidateOk_occ {Pos : Type} {R : ChessRules Pos} {pos : Pos}
    {placed curr : Bitboard} {mv : Move}
    (h : candidateOk R pos placed curr mv = true) :
    R.occupied (R.play pos mv) = curr := by
  unfold candidateOk at h
  simp only [Bool.and_eq_true, decide_eq_true_eq] at h
  exact h.2

/-- An accepted candidate passed the promotion filter. -/
theorem candidateOk_promo {Pos : Type} {R : ChessRules Pos} {pos : Pos}
    {placed curr : Bitboard} {mv : Move}
    (h : candidateOk R pos placed curr mv = true) :
    promoRejects mv = false := by
  unfold candidateOk at h
  simp only [Bool.and_eq_true, Bool.not_eq_true'] at h
  exact h.1.1

/-- A move that passes the promotion filter promotes to nothing or to a queen. -/
theorem promoRejects_false_iff (mv : Move) :
    promoRejects mv = false ↔
      mv.promotion = none ∨ mv.promotion = some Role.queen := by
  unfold promoRejects
  rcases hp : mv.promotion with _ | r
  · simp
  · rcases r <;> simp

/-- Each call of `process_moves` commits zero or one legal move: the position
is unchanged or advances by one legal move of the current position. -/
theorem processMoves_position_cases {Pos : Type} (R : ChessRules Pos)
    (e : GameEngine Pos) (curr : Bitboard) :
    (processMoves R e curr).position = e.position ∨
      ∃ mv ∈ R.legalMoves e.position,
        (processMoves R e curr).position = R.play e.position mv := by
  unfold processMoves
  by_cases h1 : curr = e.last_bitboard
  · simp [h1]
  · simp only [if_neg h1]
    by_cases h2 : curr \ e.last_bitboard = ∅ ∧ (R.occupied e.position \ curr).card ≠ 2
    · simp [h2]
    · simp only [if_neg h2]
      rcases h3 : commitMove R e.position (curr \ e.last_bitboard) curr with _ | mv
      · simp [h3]
      · simp only [h3]
        exact Or.inr ⟨mv, (commitMove_spec h3).1, rfl⟩

/-- When `process_moves` changes the position, the new position's occupancy is
exactly the observed bitboard (the commit condition of the candidate loop). -/
theorem processMoves_changed_occ {Pos : Type} {R : ChessRules Pos}
    {e : GameEngine Pos} {curr : Bitboard}
    (h : (processMoves R e curr).position ≠ e.position) :
    R.occupied ((processMoves R e curr).position) = curr := by
  unfold processMoves at h ⊢
  by_cases h1 : curr = e.last_bitboard
  · simp [h1] at h
  · simp only [if_neg h1] at h ⊢
    by_cases h2 : curr \ e.last_bitboard = ∅ ∧ (R.occupied e.position \ curr).card ≠ 2
    · simp [h2] at h
    · simp only [if_neg h2] at h ⊢
      rcases h3 : commitMove R e.position (curr \ e.last_bitboard) curr with _ | mv
      · simp [h3] at h
      · simp only [h3]
        exact candidateOk_occ (commitMove_spec h3).2

/-- The gate of `process_moves`: when nothing was placed since the previous
snapshot and the number of squares missing relative to the *position's*
occupancy is not two, the candidate loop is not entered and the position is
unchanged. -/
theorem processMoves_gate_blocks {Pos : Type} (R : ChessRules Pos)
    (e : GameEngine Pos) (curr : Bitboard)
    (hplaced : curr \ e.last_bitboard = ∅)
    (hcard : (R.occupied e.position \ curr).card ≠ 2) :
    (processMoves R e curr).position = e.position := by
  unfold processMoves
  by_cases h1 : curr = e.last_bitboard
  · simp [h1]
  · simp [if_neg h1, hplaced, hcard]

/-- The engine part of `tick` is `process_moves`. -/
theorem tickO_fst {Pos : Type} (R : ChessRules Pos) (e : GameEngine Pos)
    (curr : Bitboard) :
    (tickO R e curr).1 = processMoves R e curr := by
  cases h : R.kingOfUs (processMoves R e curr).position <;> simp [tickO, h]

/-- The committed position of a run is reachable from the initial position by
legal moves. -/
theorem runEngine_reachable {Pos : Type} (R : ChessRules Pos) (e : GameEngine Pos)
    (snaps : List Bitboard) :
    Relation.ReflTransGen (LegalStep R) e.position ((runEngine R e snaps).position) := by
  induction snaps generalizing e with
  | nil => exact Relation.ReflTransGen.refl
  | cons c cs ih =>
    have hrun : runEngine R e (c :: cs) = runEngine R (processMoves R e c) cs := rfl
    rw [hrun]
    rcases processMoves_position_cases R e c with heq | ⟨mv, hmem, heq⟩
    · have := ih (processMoves R e c)
      rwa [heq] at this
    · exact Relation.ReflTransGen.head ⟨mv, hmem, heq⟩ (ih (processMoves R e c))

/-- The transient fields of a `tick`'s game state are the single missing own
and opponent squares relative to the post-processing position. -/
theorem tickO_snd_eq {Pos : Type} (R : ChessRules Pos) (e : GameEngine Pos)
    (curr : Bitboard) {gs : GameState} (h : (tickO R e curr).2 = some gs) :
    gs.lifted_piece = singleSquare (R.us ((processMoves R e curr).position) \ curr) ∧
    gs.captured_piece = singleSquare (R.them ((processMoves R e curr).position) \ curr) := by
  cases hk : R.kingOfUs (processMoves R e curr).position <;>
    simp [tickO, hk] at h
  rw [← h]
  exact ⟨rfl, rfl⟩

/-- `single_square` of the empty bitboard is `none`. -/
theorem singleSquare_empty : singleSquare (∅ : Bitboard) = none := by
  simp [singleSquare]

/-- King lookups stay defined along legal-move reachability. -/
theorem king_along_reach {Pos : Type} {R : ChessRules Pos}
    (hpres : ∀ (p : Pos) (mv : Move), mv ∈ R.legalMoves p →
      (R.kingOfUs (R.play p mv)).isSome = true)
    {p q : Pos} (hreach : Relation.ReflTransGen (LegalStep R) p q)
    (h0 : (R.kingOfUs p).isSome = true) : (R.kingOfUs q).isSome = true := by
  induction hreach with
  | refl => exact h0
  | tail _ hstep ih =>
    obtain ⟨mv, hmem, heq⟩ := hstep
    rw [heq]
    exact hpres _ _ hmem

/-- `show_check_feedback` writes only `Check` and `Checker` tags. -/
theorem showCheckFeedback_tags (ci : CheckInfo) (sq : Square) (t : SquareFeedback)
    (h : (showCheckFeedback ci).get sq = some t) :
    t = SquareFeedback.check ∨ t = SquareFeedback.checker := by
  unfold showCheckFeedback at h
  refine foldl_get_tags (fun t => t = SquareFeedback.check ∨ t = SquareFeedback.checker)
    (bbAscList ci.checkers) _ ?_ _ ?_ sq t h
  · intro fb b sq' t' h'
    rw [BoardFeedback.get_set] at h'
    split at h'
    · exact Or.inr (Or.inr (Option.some_injective _ h').symm)
    · exact Or.inl h'
  · intro sq' t' h'
    rw [BoardFeedback.get_set] at h'
    split at h'
    · exact Or.inl (Option.some_injective _ h').symm
    · simp [BoardFeedback.get, BoardFeedback.new] at h'

/-! ## Claim theorems -/

/-- C1: for every initial position and snapshot sequence, each `tick` commits
zero or one legal move of the current position (so at most one move per tick),
and hence the committed position after any tick sequence is reachable from the
initial position by a sequence of legal moves.  Legality of the positions
themselves is delegated to the rules library: reachability by legal moves from
a legal initial position is the spec's notion of a legal reachable position. -/
theorem engine_commits_zero_or_one_legal_move {Pos : Type} (R : ChessRules Pos)
    (e : GameEngine Pos) (curr : Bitboard) (snaps : List Bitboard) :
    ((processMoves R e curr).position = e.position ∨
      ∃ mv ∈ R.legalMoves e.position,
        (processMoves R e curr).position = R.play e.position mv) ∧
    Relation.ReflTransGen (LegalStep R) e.position ((runEngine R e snaps).position) :=
  ⟨processMoves_position_cases R e curr, runEngine_reachable R e snaps⟩

/-- C2 counterexample: a tick with `placed = ∅` and exactly **one** square
lifted since the previous snapshot (`|prev \ curr| = 1 ≠ 2`) that nevertheless
commits a move.  It is the staged en-passant completion from `epPos`: the first
tick lifts e5 and places d6 (no commit), the second tick removes d5 — only one
square disappeared relative to the previous snapshot, yet the code's gate
counts two squares missing relative to the *position's* occupancy (e5 and d5)
and commits e5xd6.  The committed position holds a white pawn on d6 where the
previous one held nothing. -/
theorem gate_lift_count_counterexample :
    epCurr2 ≠ epE1.last_bitboard ∧
    epCurr2 \ epE1.last_bitboard = ∅ ∧
    (epE1.last_bitboard \ epCurr2).card = 1 ∧
    mkRules.pieceAt epE1.position sqD6 = none ∧
    mkRules.pieceAt (processMoves mkRules epE1 epCurr2).position sqD6 = some wP ∧
    (processMoves mkRules epE1 epCurr2).position ≠ epE1.position := by
  refine ⟨by decide, by decide, by decide, by decide, by decide, fun h => ?_⟩
  have h2 := congrArg (fun p => mkRules.pieceAt p sqD6) h
  simp only at h2
  rw [show mkRules.pieceAt (processMoves mkRules epE1 epCurr2).position sqD6 = some wP
        from by decide,
      show mkRules.pieceAt epE1.position sqD6 = none from by decide] at h2
  exact Option.noConfusion h2

/-- C2 amended: for every tick whose snapshot differs from the previous one,
if `placed = curr \ prev` is empty and the number of squares in
`position.occupied() \ curr` — squares missing relative to the *committed
position's* occupancy, not relative to the previous snapshot — is not exactly
two, the tick commits no move and the engine's position is unchanged. -/
theorem gate_missing_from_position_blocks {Pos : Type} (R : ChessRules Pos)
    (e : GameEngine Pos) (curr : Bitboard)
    (hplaced : curr \ e.last_bitboard = ∅)
    (hcard : (R.occupied e.position \ curr).card ≠ 2) :
    (processMoves R e curr).position = e.position :=
  processMoves_gate_blocks R e curr hplaced hcard

/-- Witness for the amended C2 gate: lifting the white b7 pawn alone (one
square missing) commits nothing. -/
theorem gate_missing_from_position_blocks_witness :
    (processMoves mkRules promoE0 ((mkRules.occupied promoPos).erase sqB7)).position
      = promoE0.position :=
  gate_missing_from_position_blocks mkRules promoE0 _ (by decide) (by decide)

/-- C3 counterexample: the capture pre-filter in the code tests
`Some(mv.to()) != placed.first()` — the *lowest* placed square — not
`placed.single()`.  With two placed squares `{e4, d5}` a capture to d5 is
rejected by the code (the lowest placed square is e4 ≠ d5), while
`placed.single()` is undefined, so the claim (which says no capture is
rejected when two or more squares are placed) calls for no rejection. -/
theorem capture_prefilter_counterexample :
    (Move.normal .pawn sqE4 (some .pawn) sqD5 none).isCapture = true ∧
    (Move.normal .pawn sqE4 (some .pawn) sqD5 none).isEnPassant = false ∧
    ({sqE4, sqD5} : Bitboard).card = 2 ∧
    singleSquare {sqE4, sqD5} = none ∧
    captureRejects {sqE4, sqD5} (Move.normal .pawn sqE4 (some .pawn) sqD5 none) = true := by
  decide

/-- C3 amended: a legal move that is a capture but not en passant is rejected
by the pre-filter if and only if `Some(m.to())` differs from `placed.first()`
(the lowest placed square) — in particular it is also rejected when `placed`
is empty, and when `placed` holds several squares whose lowest is not
`m.to()`. -/
theorem capture_prefilter_first_iff (placed : Bitboard) (mv : Move)
    (hcap : mv.isCapture = true) (hep : mv.isEnPassant = false) :
    captureRejects placed mv = true ↔ some mv.to ≠ bbFirst placed := by
  unfold captureRejects
  rw [hcap, hep]
  simp

/-- Witness for the amended C3 pre-filter at a concrete capture: placing on the
capture square itself is not rejected. -/
theorem capture_prefilter_first_iff_witness :
    captureRejects {sqD5} (Move.normal .pawn sqE4 (some .pawn) sqD5 none) = true ↔
      some (Move.normal .pawn sqE4 (some .pawn) sqD5 none).to ≠ bbFirst {sqD5} :=
  capture_prefilter_first_iff {sqD5} _ (by decide) (by decide)

/-- C9: `tick` is infallible.  Provided the rules library guarantees a king for
the side to move — the initial position has one and playing any legal move
yields a position with one, which holds for every legal chess position — the
king lookup inside `tick` (the only `panic` site) always succeeds, for every
snapshot sequence: `tick` always returns a `GameState`. -/
theorem tick_never_panics {Pos : Type} (R : ChessRules Pos) (e : GameEngine Pos)
    (h0 : (R.kingOfUs e.position).isSome = true)
    (hpres : ∀ (p : Pos) (mv : Move), mv ∈ R.legalMoves p →
      (R.kingOfUs (R.play p mv)).isSome = true)
    (snaps : List Bitboard) (curr : Bitboard) :
    ((tickO R (runEngine R e snaps) curr).2).isSome = true := by
  have hrun : (R.kingOfUs ((runEngine R e snaps).position)).isSome = true :=
    king_along_reach hpres (runEngine_reachable R e snaps) h0
  have hking : (R.kingOfUs ((processMoves R (runEngine R e snaps) curr).position)).isSome
      = true := by
    rcases processMoves_position_cases R (runEngine R e snaps) curr with heq | ⟨mv, hmem, heq⟩
    · rw [heq]; exact hrun
    · rw [heq]; exact hpres _ _ hmem
  rcases hk : R.kingOfUs ((processMoves R (runEngine R e snaps) curr).position)
    with _ | king
  · rw [hk] at hking; exact absurd hking (by simp)
  · simp [tickO, hk]

/-- A minimal rules instance with a king and no legal moves, witnessing that
`tick_never_panics`'s hypotheses are satisfiable. -/
def unitRules : ChessRules Unit where
  legalMoves _ := []
  play _ _ := ()
  occupied _ := ∅
  us _ := ∅
  them _ := ∅
  checkers _ := ∅
  kingOfUs _ := some sqE1
  pieceAt _ _ := none

/-- Witness for C9 at a concrete engine and snapshot sequence. -/
theorem tick_never_panics_witness :
    ((tickO unitRules (runEngine unitRules ⟨(), ∅⟩ [∅, {sqE4}]) {sqD5}).2).isSome = true :=
  tick_never_panics unitRules ⟨(), ∅⟩ rfl
    (fun _p mv h => absurd h (List.not_mem_nil mv)) [∅, {sqE4}] {sqD5}

/-- C10: when a tick commits a move (the position changes), the returned game
state has `lifted_piece = none` and `captured_piece = none` — the commit
condition makes the post-move occupancy equal the snapshot, so no own or
opponent piece is missing — and the feedback computed from that state can only
carry `Check`/`Checker` tags (check highlights) or nothing. -/
theorem commit_clears_transient_state {Pos : Type} (R : ChessRules Pos)
    (e : GameEngine Pos) (curr : Bitboard) (gs : GameState)
    (hus : ∀ p : Pos, R.us p ⊆ R.occupied p)
    (hthem : ∀ p : Pos, R.them p ⊆ R.occupied p)
    (hgs : (tickO R e curr).2 = some gs)
    (hchange : (tickO R e curr).1.position ≠ e.position) :
    gs.lifted_piece = none ∧ gs.captured_piece = none ∧
      ∀ sq t, (computeFeedback gs).get sq = some t →
        t = SquareFeedback.check ∨ t = SquareFeedback.checker := by
  rw [tickO_fst] at hchange
  have hocc := processMoves_changed_occ hchange
  obtain ⟨hl, hc⟩ := tickO_snd_eq R e curr hgs
  have hl0 : R.us ((processMoves R e curr).position) \ curr = ∅ := by
    rw [Finset.sdiff_eq_empty_iff_subset]
    have h := hus ((processMoves R e curr).position)
    rwa [hocc] at h
  have hc0 : R.them ((processMoves R e curr).position) \ curr = ∅ := by
    rw [Finset.sdiff_eq_empty_iff_subset]
    have h := hthem ((processMoves R e curr).position)
    rwa [hocc] at h
  have hlifted : gs.lifted_piece = none := by rw [hl, hl0, singleSquare_empty]
  have hcaptured : gs.captured_piece = none := by rw [hc, hc0, singleSquare_empty]
  refine ⟨hlifted, hcaptured, fun sq t h => ?_⟩
  unfold computeFeedback at h
  rw [hlifted, hcaptured] at h
  rcases hci : gs.checkInfo with _ | ci <;> rw [hci] at h
  · exact absurd h (by simp [BoardFeedback.get, BoardFeedback.new])
  · exact showCheckFeedback_tags ci sq t h

/-- Witness for C10: the committing promotion tick from `promoPos`. -/
theorem commit_clears_transient_state_witness :
    ((tickO mkRules promoE0 promoCurr).2.map GameState.lifted_piece = some none) := by
  rcases hgs : (tickO mkRules promoE0 promoCurr).2 with _ | gs
  · exact absurd hgs (by decide)
  · have h := commit_clears_transient_state mkRules promoE0 promoCurr gs
      mkRules_us_subset mkRules_them_subset hgs (by
        rw [tickO_fst]
        intro heq
        have h2 := congrArg (fun p => mkRules.pieceAt p sqB8) heq
        simp only at h2
        rw [show mkRules.pieceAt (processMoves mkRules promoE0 promoCurr).position sqB8
              = some wQ from by decide,
            show mkRules.pieceAt promoE0.position sqB8 = none from by decide] at h2
        exact Option.noConfusion h2)
    simp [h.1]

/-- The tags a move-guidance map may carry. -/
def GuideTag (t : SquareFeedback) : Prop :=
  t = SquareFeedback.origin ∨ t = SquareFeedback.capture ∨ t = SquareFeedback.destination

/-- `show_destinations_for` writes only `Origin`/`Capture`/`Destination`. -/
theorem showDestinationsFor_tags (legal_moves : List Move) (src sq : Square)
    (t : SquareFeedback) (h : (showDestinationsFor legal_moves src).get sq = some t) :
    GuideTag t := by
  unfold showDestinationsFor at h
  refine foldl_get_tags GuideTag legal_moves _ ?_ _ ?_ sq t h
  · intro fb mv sq' t' h'
    split at h'
    · rw [BoardFeedback.get_set] at h'
      split at h'
      · refine Or.inr ?_
        have ht' := (Option.some_injective _ h').symm
        unfold classifyMove at ht'
        split at ht' <;> simp_all [GuideTag]
      · exact Or.inl h'
    · exact Or.inl h'
  · intro sq' t' h'
    rw [BoardFeedback.get_set] at h'
    split at h'
    · exact Or.inl (Option.some_injective _ h').symm
    · simp [BoardFeedback.get, BoardFeedback.new] at h'

/-- `show_capture_options` writes only `Origin`/`Capture`/`Destination`. -/
theorem showCaptureOptions_tags (legal_moves : List Move) (captured_sq sq : Square)
    (t : SquareFeedback) (h : (showCaptureOptions legal_moves captured_sq).get sq = some t) :
    GuideTag t := by
  unfold showCaptureOptions at h
  refine foldl_get_tags GuideTag legal_moves _ ?_ _ ?_ sq t h
  · intro fb mv sq' t' h'
    split at h'
    · rcases hf : mv.fromSq with _ | src <;> rw [hf] at h'
      · rw [BoardFeedback.get_set] at h'
        split at h'
        · exact Or.inr (Or.inr (Or.inr (Option.some_injective _ h').symm))
        · exact Or.inl h'
      · rw [BoardFeedback.get_set] at h'
        split at h'
        · exact Or.inr (Or.inl (Option.some_injective _ h').symm)
        · rw [BoardFeedback.get_set] at h'
          split at h'
          · exact Or.inr (Or.inr (Or.inr (Option.some_injective _ h').symm))
          · exact Or.inl h'
    · exact Or.inl h'
  · intro sq' t' h'
    simp [BoardFeedback.get, BoardFeedback.new] at h'

/-- `show_capture_completion` writes only `Origin`/`Destination`. -/
theorem showCaptureCompletion_tags (legal_moves : List Move) (src captured_sq sq : Square)
    (t : SquareFeedback)
    (h : (showCaptureCompletion legal_moves src captured_sq).get sq = some t) :
    GuideTag t := by
  unfold showCaptureCompletion at h
  refine foldl_get_tags GuideTag legal_moves _ ?_ _ ?_ sq t h
  · intro fb mv sq' t' h'
    split at h'
    · rw [BoardFeedback.get_set] at h'
      split at h'
      · exact Or.inr (Or.inr (Or.inr (Option.some_injective _ h').symm))
      · exact Or.inl h'
    · exact Or.inl h'
  · intro sq' t' h'
    rw [BoardFeedback.get_set] at h'
    split at h'
    · exact Or.inl (Option.some_injective _ h').symm
    · simp [BoardFeedback.get, BoardFeedback.new] at h'

/-- C5: a feedback map carrying a `Check` or `Checker` tag anywhere is only
produced from a game state whose `lifted` and `captured` are both `None`
(check highlights never overwrite move guidance). -/
theorem check_feedback_only_when_idle (gs : GameState) (sq : Square)
    (h : (computeFeedback gs).get sq = some SquareFeedback.check ∨
         (computeFeedback gs).get sq = some SquareFeedback.checker) :
    gs.lifted_piece = none ∧ gs.captured_piece = none := by
  rcases hc : gs.captured_piece with _ | dst <;> rcases hl : gs.lifted_piece with _ | src
  · exact ⟨rfl, rfl⟩
  · exfalso
    unfold computeFeedback at h
    rw [hc, hl] at h
    rcases h with h | h <;>
      rcases showDestinationsFor_tags gs.legal_moves src sq _ h with h' | h' | h' <;>
        simp_all
  · exfalso
    unfold computeFeedback at h
    rw [hc, hl] at h
    rcases h with h | h <;>
      rcases showCaptureOptions_tags gs.legal_moves dst sq _ h with h' | h' | h' <;>
        simp_all
  · exfalso
    unfold computeFeedback at h
    rw [hc, hl] at h
    rcases h with h | h <;>
      rcases showCaptureCompletion_tags gs.legal_moves src dst sq _ h with h' | h' | h' <;>
        simp_all

/-- A game state in check while idle (king e8 checked from h5), used to
witness C5. -/
def checkGs : GameState where
  legal_moves := []
  lifted_piece := none
  captured_piece := none
  king_square := sqE8
  checkers := {39}

/-- Witness for C5 at the concrete in-check idle state. -/
theorem check_feedback_only_when_idle_witness :
    checkGs.lifted_piece = none ∧ checkGs.captured_piece = none :=
  check_feedback_only_when_idle checkGs sqE8 (Or.inl (by decide))

/-- The first component of `classify_move` is always `mv.to()`. -/
theorem classifyMove_fst (mv : Move) : (classifyMove mv).1 = mv.to := by
  unfold classifyMove
  split <;> rfl

/-- The second component of `classify_move`. -/
theorem classifyMove_snd (mv : Move) :
    (classifyMove mv).2 =
      if mv.isCapture then SquareFeedback.capture else SquareFeedback.destination := by
  unfold classifyMove
  split <;> simp_all

/-- The destination-marking fold body, when the move leaves the lifted square,
sets `mv.to()` with the move's classification. -/
theorem destStep_eq (fb : BoardFeedback) (mv : Move) (src : Square)
    (hm : mv.fromSq = some src) :
    (if mv.fromSq = some src then
        let (s, kind) := classifyMove mv
        fb.set s kind
      else fb) = fb.set mv.to (classifyMove mv).2 := by
  rw [if_pos hm]
  rcases hcl : classifyMove mv with ⟨s, kind⟩
  have hs : s = mv.to := by rw [← classifyMove_fst mv, hcl]
  subst hs
  rfl

/-- Characterisation of the destination-marking fold: the value at a square is
determined by the last legal move out of `src` arriving there (the first one
of the reversed list), and otherwise by the initial map. -/
theorem destFold_get (src : Square) (l : List Move) (fb0 : BoardFeedback) (sq : Square) :
    (l.foldl (fun fb mv =>
        if mv.fromSq = some src then
          let (s, kind) := classifyMove mv
          fb.set s kind
        else fb) fb0).get sq =
    (match l.reverse.find? (fun mv => mv.fromSq == some src && mv.to == sq) with
      | some mv => some (classifyMove mv).2
      | none => fb0.get sq) := by
  induction l generalizing fb0 with
  | nil => rfl
  | cons m rest ih =>
    rw [List.foldl_cons, List.reverse_cons, List.find?_append, ih]
    rcases hfind : rest.reverse.find? (fun mv => mv.fromSq == some src && mv.to == sq)
      with _ | mv
    · rw [hfind, Option.none_or]
      by_cases hm : m.fromSq = some src
      · by_cases hto : m.to = sq
        · have hp : (m.fromSq == some src && m.to == sq) = true := by
            simp [hm, hto]
          rw [List.find?_cons, hp, destStep_eq fb0 m src hm,
            BoardFeedback.get_set, if_pos hto.symm]
        · have hp : (m.fromSq == some src && m.to == sq) = false := by
            simp [hm, hto]
          rw [List.find?_cons, hp, destStep_eq fb0 m src hm,
            BoardFeedback.get_set, if_neg (fun h => hto h.symm)]
          rfl
      · have hp : (m.fromSq == some src && m.to == sq) = false := by
          simp [hm]
        rw [List.find?_cons, hp, if_neg hm]
        rfl
    · rw [hfind]
      rfl

/-- C6 (amended): for a state with `captured = None` and `lifted = Some(f)`
(and a move list without self-destinations and with consistent captureness per
destination, as in every chess position), the feedback map marks `f` as
`Origin` and, for every legal move out of `f`, marks `m.to()` — which for a
castling move is the *rook's origin square*, not the king's post-move square —
as `Capture` when the move captures and as `Destination` otherwise; no other
square is marked. -/
theorem lifted_feedback_marks (gs : GameState) (src : Square)
    (hl : gs.lifted_piece = some src) (hc : gs.captured_piece = none)
    (hnoself : ∀ mv ∈ gs.legal_moves, mv.fromSq = some src → mv.to ≠ src)
    (hcon : ∀ mv ∈ gs.legal_moves, ∀ mv' ∈ gs.legal_moves,
      mv.fromSq = some src → mv'.fromSq = some src → mv.to = mv'.to →
      mv.isCapture = mv'.isCapture) :
    (computeFeedback gs).get src = some SquareFeedback.origin ∧
    ∀ sq, sq ≠ src →
      (((computeFeedback gs).get sq = some SquareFeedback.capture ↔
        ∃ mv ∈ gs.legal_moves, mv.fromSq = some src ∧ mv.to = sq ∧ mv.isCapture = true) ∧
      ((computeFeedback gs).get sq = some SquareFeedback.destination ↔
        ∃ mv ∈ gs.legal_moves, mv.fromSq = some src ∧ mv.to = sq ∧ mv.isCapture = false) ∧
      ((computeFeedback gs).get sq = none ↔
        ¬ ∃ mv ∈ gs.legal_moves, mv.fromSq = some src ∧ mv.to = sq)) := by
  have hcf : computeFeedback gs = showDestinationsFor gs.legal_moves src := by
    unfold computeFeedback
    rw [hc, hl]
  rw [hcf]
  unfold showDestinationsFor
  simp only [destFold_get]
  constructor
  · have hnone : gs.legal_moves.reverse.find?
        (fun mv => mv.fromSq == some src && mv.to == src) = none := by
      rw [List.find?_eq_none]
      intro mv hmv
      simp only [Bool.and_eq_true, beq_iff_eq, not_and]
      intro hf hto
      exact hnoself mv (List.mem_reverse.mp hmv) hf hto
    rw [hnone, BoardFeedback.get_set, if_pos rfl]
  · intro sq hsq
    rcases hfind : gs.legal_moves.reverse.find?
        (fun mv => mv.fromSq == some src && mv.to == sq) with _ | mv0
    · have hno : ¬ ∃ mv ∈ gs.legal_moves, mv.fromSq = some src ∧ mv.to = sq := by
        rintro ⟨mv, hm, hf, hto⟩
        have := List.find?_eq_none.mp hfind mv (List.mem_reverse.mpr hm)
        simp [hf, hto] at this
      have hbase : (BoardFeedback.new.set src SquareFeedback.origin).get sq = none := by
        rw [BoardFeedback.get_set, if_neg hsq]
        rfl
      simp only [hfind, hbase]
      refine ⟨⟨fun h => absurd h (by simp), fun h => absurd ⟨h.choose,
        h.choose_spec.1, h.choose_spec.2.1, h.choose_spec.2.2.1⟩ hno⟩,
        ⟨fun h => absurd h (by simp), fun h => absurd ⟨h.choose,
        h.choose_spec.1, h.choose_spec.2.1, h.choose_spec.2.2.1⟩ hno⟩,
        fun _ => hno, fun _ => trivial⟩
    · have hp := List.find?_some hfind
      simp only [Bool.and_eq_true, beq_iff_eq] at hp
      obtain ⟨hf0, hto0⟩ := hp
      have hm0 : mv0 ∈ gs.legal_moves :=
        List.mem_reverse.mp (List.mem_of_find?_eq_some hfind)
      simp only [hfind]
      rw [classifyMove_snd]
      by_cases hcap : mv0.isCapture = true
      · rw [if_pos hcap]
        refine ⟨⟨fun _ => ⟨mv0, hm0, hf0, hto0, hcap⟩, fun _ => rfl⟩,
          ⟨fun h => absurd h (by simp), fun h => ?_⟩,
          ⟨fun h => absurd h (by simp), fun h => absurd ⟨mv0, hm0, hf0, hto0⟩ h⟩⟩
        obtain ⟨mv', hm', hf', hto', hcap'⟩ := h
        rw [hcon mv' hm' mv0 hm0 hf' hf0 (hto'.trans hto0.symm), hcap] at hcap'
        exact Bool.noConfusion hcap'
      · rw [if_neg hcap]
        rw [Bool.not_eq_true] at hcap
        refine ⟨⟨fun h => absurd h (by simp), fun h => ?_⟩,
          ⟨fun _ => ⟨mv0, hm0, hf0, hto0, hcap⟩, fun _ => rfl⟩,
          ⟨fun h => absurd h (by simp), fun h => absurd ⟨mv0, hm0, hf0, hto0⟩ h⟩⟩
        obtain ⟨mv', hm', hf', hto', hcap'⟩ := h
        rw [hcon mv' hm' mv0 hm0 hf' hf0 (hto'.trans hto0.symm), hcap] at hcap'
        exact Bool.noConfusion hcap'

/-- Witness for the amended C6 at the castling position with the king lifted:
e1 is marked `Origin`. -/
theorem lifted_feedback_marks_witness :
    (computeFeedback castleGs).get sqE1 = some SquareFeedback.origin :=
  (lifted_feedback_marks castleGs sqE1 rfl rfl (by decide) (by decide)).1

/-- C6 counterexample: in the castling position with the white king lifted
from e1, the legal castling move is `Castle { king: e1, rook: h1 }`, whose
`to()` is the rook's origin h1; the feedback marks h1 (and f1) as
`Destination` and leaves the king's post-move square g1 unmarked, contradicting
the claim that the king's post-move square is the marked destination. -/
theorem castling_feedback_counterexample :
    castleGs.captured_piece = none ∧
    castleGs.lifted_piece = some sqE1 ∧
    Move.castle sqE1 sqH1 ∈ castleGs.legal_moves ∧
    (Move.castle sqE1 sqH1).to = sqH1 ∧
    (computeFeedback castleGs).get sqG1 = none ∧
    (computeFeedback castleGs).get sqH1 = some SquareFeedback.destination := by
  decide

/-- The white occupancy a successful first sensor tick reports. -/
def tickWhite (r : Except ParseError (Option (Bitboard × Bitboard) × ScriptedSensor)) :
    Option Bitboard :=
  match r with
  | .ok (some wb, _) => some wb.1
  | _ => none

/-- The black occupancy a successful first sensor tick reports. -/
def tickBlack (r : Except ParseError (Option (Bitboard × Bitboard) × ScriptedSensor)) :
    Option Bitboard :=
  match r with
  | .ok (some wb, _) => some wb.2
  | _ => none

/-- Modelled from the spec: the position of FEN
`rnbqkbnr/ppp1pppp/8/3p4/4P3/8/PPPP1PPP/RNBQKBNR w KQkq - 0 1` (white pawn on
e4, black pawn on d5, white to move).  The tick under examination returns
before consulting the legal moves — the claim's conclusion below is proved for
*every* rules instance whose occupancy matches this board — so the move list
is not populated. -/
def capPos : PosData where
  board :=
    [ (0, wR), (1, wN), (2, wB), (3, wQ), (4, wK), (5, wB), (6, wN), (7, wR)
    , (8, wP), (9, wP), (10, wP), (11, wP), (13, wP), (14, wP), (15, wP)
    , (28, wP)
    , (35, bP)
    , (48, bP), (49, bP), (50, bP), (52, bP), (53, bP), (54, bP), (55, bP)
    , (56, bR), (57, bN), (58, bB), (59, bQ), (60, bK), (61, bB), (62, bN), (63, bR) ]
  turn := .white
  moves := []
  checkersBB := ∅

/-- The sensor of the capture scenario after queueing the one-batch script
`"d5 e4 Wd5."`. -/
def c4Sensor : Except ParseError ScriptedSensor := do
  let s ← ScriptedSensor.fromBitboards capWhite capBlack
  s.pushScript "d5 e4 Wd5."

/-- Executing that batch: remove the black d5 pawn, lift the white e4 pawn,
place a white piece on d5. -/
def c4Tick : Except ParseError (Option (Bitboard × Bitboard) × ScriptedSensor) := do
  let s ← c4Sensor
  s.tick

/-- C4 (what the code actually does): the one-batch capture script
`"d5 e4 Wd5."` leaves the *combined* occupancy equal to the original minus e4
(d5 merely changes color), so `placed = curr \ prev = ∅` and only one square
is missing from the position's occupancy; the gate of `process_moves` returns
without committing, for every rules instance over this occupancy, and the
black pawn is still on d5 afterwards — the capture the repository's own
integration test `capture_lift_and_place_completes` (and the spec's scenario 3)
expects to commit does not happen. -/
theorem capture_one_tick_script_no_commit :
    tickWhite c4Tick = some (insert sqD5 (capWhite.erase sqE4)) ∧
    tickBlack c4Tick = some (capBlack.erase sqD5) ∧
    insert sqD5 (capWhite.erase sqE4) ∪ capBlack.erase sqD5 = capOcc \ {sqE4} ∧
    (∀ {Pos : Type} (R : ChessRules Pos) (p : Pos), R.occupied p = capOcc →
      (tickO R ⟨p, capOcc⟩ (capOcc \ {sqE4})).1.position = p) ∧
    mkRules.occupied capPos = capOcc ∧
    mkRules.pieceAt capPos sqD5 = some bP ∧
    mkRules.pieceAt
      ((tickO mkRules (GameEngine.fromPosition mkRules capPos) (capOcc \ {sqE4})).1.position)
      sqD5 = some bP := by
  refine ⟨by decide, by decide, by decide, ?_, by decide, by decide, by decide⟩
  intro Pos R p hocc
  rw [tickO_fst]
  refine processMoves_gate_blocks R ⟨p, capOcc⟩ (capOcc \ {sqE4})
    (show (capOcc \ {sqE4}) \ capOcc = ∅ by decide) ?_
  show (R.occupied p \ (capOcc \ {sqE4})).card ≠ 2
  rw [hocc]
  decide

/-- Witness for C4's universally quantified part at the concrete `capPos`. -/
theorem capture_one_tick_script_no_commit_witness :
    (tickO mkRules (⟨capPos, capOcc⟩ : GameEngine PosData) (capOcc \ {sqE4})).1.position
      = capPos :=
  capture_one_tick_script_no_commit.2.2.2.1 mkRules capPos (by decide)

/-- The sensor of the promotion scenario after queueing `"b7 Wb8."`. -/
def c7Sensor : Except ParseError ScriptedSensor := do
  let s ← ScriptedSensor.fromBitboards promoWhite promoBlack
  s.pushScript "b7 Wb8."

/-- Executing that batch: lift the white b7 pawn, place a white piece on b8. -/
def c7Tick : Except ParseError (Option (Bitboard × Bitboard) × ScriptedSensor) := do
  let s ← c7Sensor
  s.tick

/-- C7: the candidate loop never commits a promotion whose role is not Queen
(the promotion filter rejects every other promotion), for every rules instance,
position and snapshot; and concretely, from the promotion FEN the one-tick
script `"b7 Wb8."` commits b7–b8=Q: the committed position has a white queen
on b8 and nothing on b7. -/
theorem promotion_queen_only :
    (∀ {Pos : Type} (R : ChessRules Pos) (pos : Pos) (placed curr : Bitboard)
      (mv : Move), commitMove R pos placed curr = some mv →
        mv.promotion = none ∨ mv.promotion = some Role.queen) ∧
    tickWhite c7Tick = some (insert sqB8 (promoWhite.erase sqB7)) ∧
    tickBlack c7Tick = some promoBlack ∧
    insert sqB8 (promoWhite.erase sqB7) ∪ promoBlack = promoCurr ∧
    mkRules.pieceAt ((tickO mkRules promoE0 promoCurr).1.position) sqB8 = some wQ ∧
    mkRules.pieceAt ((tickO mkRules promoE0 promoCurr).1.position) sqB7 = none := by
  refine ⟨?_, by decide, by decide, by decide, ?_, ?_⟩
  · intro Pos R pos placed curr mv h
    exact (promoRejects_false_iff mv).mp (candidateOk_promo (commitMove_spec h).2)
  · rw [tickO_fst]
    decide
  · rw [tickO_fst]
    decide

/-- Witness for C7's promotion-filter part at the concrete committing move. -/
theorem promotion_queen_only_witness :
    (Move.normal .pawn 49 none 57 (some Role.queen)).promotion = none ∨
    (Move.normal .pawn 49 none 57 (some Role.queen)).promotion = some Role.queen :=
  promotion_queen_only.1 mkRules promoPos {sqB8} promoCurr
    (Move.normal .pawn 49 none 57 (some Role.queen)) (by decide)

/-- The `parse_script` loop as one recursion: fold the characters with error
propagation (as `?` does in the Rust), then flush the final token. -/
def runParse (cs : List Char) (st : PState) : Except ParseError PState :=
  match cs with
  | [] => flushToken st
  | c :: rest =>
    match stepChar st c with
    | .error e => .error e
    | .ok st' => runParse rest st'

/-- The character fold of `parse_script` (plus the final flush) is `runParse`. -/
theorem runParse_eq (cs : List Char) (st : PState) :
    (cs.foldlM stepChar st >>= flushToken) = runParse cs st := by
  induction cs generalizing st with
  | nil => rfl
  | cons c rest ih =>
    rw [List.foldlM_cons]
    rcases h : stepChar st c with e | st'
    · simp only [runParse, h]
      rfl
    · simp only [runParse, h]
      rw [← ih st']
      rfl

/-- The tokenizer as one recursion. -/
def runTok (cs : List Char) (st : TState) : List (List Char) :=
  match cs with
  | [] => (tFlush st).toks
  | c :: rest => runTok rest (tStep st c)

/-- The tokenizer fold is `runTok`. -/
theorem runTok_eq (s : String) : tokenize s = runTok s.toList ⟨[], []⟩ := by
  unfold tokenize
  generalize s.toList = cs
  suffices h : ∀ (cs : List Char) (st : TState), (tFlush (cs.foldl tStep st)).toks = runTok cs st
    from h cs ⟨[], []⟩
  intro cs
  induction cs with
  | nil => intro st; rfl
  | cons c rest ih => intro st; rw [List.foldl_cons]; exact ih (tStep st c)

/-- `stepChar` with its let-bindings unfolded. -/
theorem stepChar_eq (st : PState) (c : Char) :
    stepChar st c =
      (if c = '.' then
        match flushToken st with
        | .error e => .error e
        | .ok st' => .ok ⟨[], st'.doneBatches ++ [st'.curBatch], []⟩
      else if c.isWhitespace then flushToken st
      else if (st.token ++ [c]).length = (if hasColorPfx (st.token ++ [c]) then 3 else 2) then
        flushToken ⟨st.token ++ [c], st.doneBatches, st.curBatch⟩
      else .ok ⟨st.token ++ [c], st.doneBatches, st.curBatch⟩) := by
  unfold stepChar
  by_cases h1 : c = '.'
  · simp only [if_pos h1]
    rcases flushToken st with e | st' <;> rfl
  · simp only [if_neg h1]

/-- `tStep` with its let-bindings unfolded. -/
theorem tStep_eq (st : TState) (c : Char) :
    tStep st c =
      (if c = '.' then tFlush st
      else if c.isWhitespace then tFlush st
      else if (st.token ++ [c]).length = (if hasColorPfx (st.token ++ [c]) then 3 else 2) then
        tFlush ⟨st.token ++ [c], st.toks⟩
      else ⟨st.token ++ [c], st.toks⟩) := rfl

/-- `tStep` never drops produced tokens. -/
theorem tStep_toks_mono (st : TState) (c : Char) (t : List Char) (h : t ∈ st.toks) :
    t ∈ (tStep st c).toks := by
  have hflush : ∀ st' : TState, t ∈ st'.toks → t ∈ (tFlush st').toks := by
    intro st' h'
    unfold tFlush
    split
    · exact h'
    · simp only [List.mem_append]
      exact Or.inl h'
  rw [tStep_eq]
  by_cases h1 : c = '.'
  · rw [if_pos h1]
    exact hflush st h
  · rw [if_neg h1]
    by_cases h2 : c.isWhitespace = true
    · rw [if_pos h2]
      exact hflush st h
    · rw [if_neg h2]
      by_cases h3 : (st.token ++ [c]).length = (if hasColorPfx (st.token ++ [c]) then 3 else 2)
      · rw [if_pos h3]
        exact hflush _ h
      · rw [if_neg h3]
        exact h

/-- Produced tokens survive the rest of the tokenizer run. -/
theorem runTok_mem (cs : List Char) (st : TState) (t : List Char) (h : t ∈ st.toks) :
    t ∈ runTok cs st := by
  induction cs generalizing st with
  | nil =>
    unfold runTok tFlush
    split
    · exact h
    · simp only [List.mem_append]
      exact Or.inl h
  | cons c rest ih => exact ih (tStep st c) (tStep_toks_mono st c t h)

/-- `flush_token` fails exactly on a nonempty token that does not parse as a
square (after stripping the optional color marker). -/
theorem flushToken_error_iff (st : PState) :
    (∃ e, flushToken st = .error e) ↔
      st.token ≠ [] ∧ isValidSquareToken st.token = false := by
  unfold flushToken
  split
  · simp_all
  · split <;> simp_all [isValidSquareToken]

/-- A successful `flush_token` always clears the token. -/
theorem flushToken_ok_token (st st' : PState) (h : flushToken st = .ok st') :
    st'.token = [] := by
  unfold flushToken at h
  split at h
  · cases h
    simp_all
  · split at h
    · exact Except.noConfusion h
    · cases h
      rfl

/-- `flush_token` only ever fails with `InvalidSquare`. -/
theorem flushToken_error_kind (st : PState) (e : ParseError)
    (h : flushToken st = .error e) : ∃ t, e = ParseError.invalidSquare t := by
  unfold flushToken at h
  split at h
  · exact Except.noConfusion h
  · split at h
    · cases h
      exact ⟨_, rfl⟩
    · exact Except.noConfusion h

/-- `stepChar` only ever fails with `InvalidSquare` (its errors all come from
`flush_token`). -/
theorem stepChar_error_kind (st : PState) (c : Char) (e : ParseError)
    (h : stepChar st c = .error e) : ∃ t, e = ParseError.invalidSquare t := by
  rw [stepChar_eq] at h
  by_cases h1 : c = '.'
  · rw [if_pos h1] at h
    rcases hf : flushToken st with e' | st' <;> rw [hf] at h
    · cases h
      exact flushToken_error_kind st e hf
    · exact Except.noConfusion h
  · rw [if_neg h1] at h
    by_cases h2 : c.isWhitespace = true
    · rw [if_pos h2] at h
      exact flushToken_error_kind st e h
    · rw [if_neg h2] at h
      by_cases h3 : (st.token ++ [c]).length = (if hasColorPfx (st.token ++ [c]) then 3 else 2)
      · rw [if_pos h3] at h
        exact flushToken_error_kind _ e h
      · rw [if_neg h3] at h
        exact Except.noConfusion h

/-- The three outcomes of `flush_token`: empty token (no-op), valid token
(appended to the current batch), invalid token (`InvalidSquare`). -/
theorem flushToken_trichotomy (st : PState) :
    (st.token = [] ∧ flushToken st = .ok st) ∨
    (st.token ≠ [] ∧ isValidSquareToken st.token = true ∧
      ∃ entry, flushToken st = .ok ⟨[], st.doneBatches, st.curBatch ++ [entry]⟩) ∨
    (st.token ≠ [] ∧ isValidSquareToken st.token = false ∧
      flushToken st = .error (.invalidSquare (String.mk st.token))) := by
  unfold flushToken
  split
  · exact Or.inl ⟨by assumption, rfl⟩
  · rcases hps : parseSquareChars (stripColor st.token).2 with _ | sq
    · refine Or.inr (Or.inr ⟨by assumption, ?_, ?_⟩)
      · simp [isValidSquareToken, hps]
      · rfl
    · refine Or.inr (Or.inl ⟨by assumption, ?_, ⟨(sq, (stripColor st.token).1), ?_⟩⟩)
      · simp [isValidSquareToken, hps]
      · rfl

/-- The `parse_script` character loop fails (necessarily with `InvalidSquare`)
exactly when the tokenizer's output, beyond an already-valid prefix, contains a
token that does not parse as a square. -/
theorem runParse_error_iff_token (cs : List Char) :
    ∀ (tok : List Char) (db : List (List BatchEntry)) (cb : List BatchEntry)
      (ts : List (List Char)), (∀ t ∈ ts, isValidSquareToken t = true) →
      ((∃ e, runParse cs ⟨tok, db, cb⟩ = .error e) ↔
        ∃ t ∈ runTok cs ⟨tok, ts⟩, isValidSquareToken t = false) := by
  induction cs with
  | nil =>
    intro tok db cb ts hts
    show (∃ e, flushToken ⟨tok, db, cb⟩ = .error e) ↔
      ∃ t ∈ (tFlush ⟨tok, ts⟩).toks, isValidSquareToken t = false
    rw [flushToken_error_iff]
    by_cases htok : tok = []
    · subst htok
      simp only [tFlush, if_pos rfl]
      constructor
      · rintro ⟨h, _⟩
        exact absurd rfl h
      · rintro ⟨t, ht, hv⟩
        rw [hts t ht] at hv
        exact Bool.noConfusion hv
    · have htf : tFlush ⟨tok, ts⟩ = ⟨[], ts ++ [tok]⟩ := by
        simp [tFlush, htok]
      rw [htf]
      constructor
      · rintro ⟨_, hv⟩
        exact ⟨tok, by simp, hv⟩
      · rintro ⟨t, ht, hv⟩
        rcases List.mem_append.mp ht with ht' | ht'
        · rw [hts t ht'] at hv
          exact Bool.noConfusion hv
        · rcases List.mem_singleton.mp ht' with rfl
          exact ⟨htok, hv⟩
  | cons c rest ih =>
    intro tok db cb ts hts
    show (∃ e, (match stepChar ⟨tok, db, cb⟩ c with
        | Except.error e => (Except.error e : Except ParseError PState)
        | Except.ok st' => runParse rest st') = Except.error e) ↔
      ∃ t ∈ runTok rest (tStep ⟨tok, ts⟩ c), isValidSquareToken t = false
    rw [stepChar_eq, tStep_eq]
    dsimp only
    by_cases h1 : c = '.'
    · simp only [if_pos h1]
      rcases flushToken_trichotomy ⟨tok, db, cb⟩ with ⟨htok, hflush⟩ |
        ⟨htok, hval, entry, hflush⟩ | ⟨htok, hval, hflush⟩
      · dsimp only at htok hflush
        subst htok
        rw [hflush]
        have htf : tFlush ⟨([] : List Char), ts⟩ = ⟨[], ts⟩ := by simp [tFlush]
        rw [htf]
        exact ih [] (db ++ [cb]) [] ts hts
      · dsimp only at htok hval hflush
        rw [hflush]
        have htf : tFlush ⟨tok, ts⟩ = ⟨[], ts ++ [tok]⟩ := by simp [tFlush, htok]
        rw [htf]
        refine ih [] (db ++ [cb ++ [entry]]) [] (ts ++ [tok]) ?_
        intro t ht
        rcases List.mem_append.mp ht with ht' | ht'
        · exact hts t ht'
        · rcases List.mem_singleton.mp ht' with rfl
          exact hval
      · dsimp only at htok hval hflush
        rw [hflush]
        have htf : tFlush ⟨tok, ts⟩ = ⟨[], ts ++ [tok]⟩ := by simp [tFlush, htok]
        rw [htf]
        refine iff_of_true ⟨_, rfl⟩ ⟨tok, ?_, hval⟩
        exact runTok_mem rest ⟨[], ts ++ [tok]⟩ tok (by simp)
    · simp only [if_neg h1]
      by_cases h2 : c.isWhitespace = true
      · simp only [if_pos h2]
        rcases flushToken_trichotomy ⟨tok, db, cb⟩ with ⟨htok, hflush⟩ |
          ⟨htok, hval, entry, hflush⟩ | ⟨htok, hval, hflush⟩
        · dsimp only at htok hflush
          subst htok
          rw [hflush]
          have htf : tFlush ⟨([] : List Char), ts⟩ = ⟨[], ts⟩ := by simp [tFlush]
          rw [htf]
          exact ih [] db cb ts hts
        · dsimp only at htok hval hflush
          rw [hflush]
          have htf : tFlush ⟨tok, ts⟩ = ⟨[], ts ++ [tok]⟩ := by simp [tFlush, htok]
          rw [htf]
          refine ih [] db (cb ++ [entry]) (ts ++ [tok]) ?_
          intro t ht
          rcases List.mem_append.mp ht with ht' | ht'
          · exact hts t ht'
          · rcases List.mem_singleton.mp ht' with rfl
            exact hval
        · dsimp only at htok hval hflush
          rw [hflush]
          have htf : tFlush ⟨tok, ts⟩ = ⟨[], ts ++ [tok]⟩ := by simp [tFlush, htok]
          rw [htf]
          refine iff_of_true ⟨_, rfl⟩ ⟨tok, ?_, hval⟩
          exact runTok_mem rest ⟨[], ts ++ [tok]⟩ tok (by simp)
      · simp only [if_neg h2]
        by_cases h3 : (tok ++ [c]).length = (if hasColorPfx (tok ++ [c]) then 3 else 2)
        · simp only [if_pos h3]
          rcases flushToken_trichotomy ⟨tok ++ [c], db, cb⟩ with ⟨htok, hflush⟩ |
            ⟨htok, hval, entry, hflush⟩ | ⟨htok, hval, hflush⟩
          · dsimp only at htok
            exact absurd htok (by simp)
          · dsimp only at htok hval hflush
            rw [hflush]
            have htf : tFlush ⟨tok ++ [c], ts⟩ = ⟨[], ts ++ [tok ++ [c]]⟩ := by
              simp [tFlush, htok]
            rw [htf]
            refine ih [] db (cb ++ [entry]) (ts ++ [tok ++ [c]]) ?_
            intro t ht
            rcases List.mem_append.mp ht with ht' | ht'
            · exact hts t ht'
            · rcases List.mem_singleton.mp ht' with rfl
              exact hval
          · dsimp only at htok hval hflush
            rw [hflush]
            have htf : tFlush ⟨tok ++ [c], ts⟩ = ⟨[], ts ++ [tok ++ [c]]⟩ := by
              simp [tFlush, htok]
            rw [htf]
            refine iff_of_true ⟨_, rfl⟩ ⟨tok ++ [c], ?_, hval⟩
            exact runTok_mem rest ⟨[], ts ++ [tok ++ [c]]⟩ (tok ++ [c]) (by simp)
        · simp only [if_neg h3]
          exact ih (tok ++ [c]) db cb ts hts

/-- `runParse` only ever fails with `InvalidSquare`. -/
theorem runParse_error_kind (cs : List Char) :
    ∀ (st : PState) (e : ParseError), runParse cs st = .error e →
      ∃ t, e = ParseError.invalidSquare t := by
  induction cs with
  | nil => exact fun st e h => flushToken_error_kind st e h
  | cons c rest ih =>
    intro st e h
    unfold runParse at h
    rcases hs : stepChar st c with e' | st' <;> rw [hs] at h
    · cases h
      exact stepChar_error_kind st c e hs
    · exact ih st' e h

/-- Binding a total continuation onto an `Except` value preserves exactly the
value's errors. -/
theorem except_bind_error_iff {α β : Type} (x : Except ParseError α)
    (f : α → Except ParseError β) (hf : ∀ a, ∃ b, f a = .ok b) (e : ParseError) :
    (x >>= f) = .error e ↔ x = .error e := by
  rcases x with e' | a
  · have hred : (Except.error e' >>= f : Except ParseError β) = Except.error e' := rfl
    rw [hred]
    constructor
    · intro h
      cases h
      rfl
    · intro h
      cases h
      rfl
  · obtain ⟨b, hb⟩ := hf a
    have hred : (Except.ok a >>= f : Except ParseError β) = f a := rfl
    rw [hred, hb]
    constructor
    · intro h
      exact Except.noConfusion h
    · intro h
      exact Except.noConfusion h

/-- `parse_script` fails exactly when its character loop does. -/
theorem parseScript_error_iff (s : String) (e : ParseError) :
    parseScript s = .error e ↔ runParse s.toList ⟨[], [], []⟩ = .error e := by
  unfold parseScript
  rw [← runParse_eq, ← bind_assoc]
  exact except_bind_error_iff _ _ (fun a => ⟨_, rfl⟩) e

/-- `push_script` fails exactly when `parse_script` does. -/
theorem pushScript_error_iff (sen : ScriptedSensor) (s : String) (e : ParseError) :
    sen.pushScript s = .error e ↔ parseScript s = .error e := by
  unfold ScriptedSensor.pushScript
  exact except_bind_error_iff _ _ (fun a => ⟨_, rfl⟩) e

/-- `toggle_square` with its monadic plumbing unfolded. -/
theorem toggleSquare_eq (s : ScriptedSensor) (sq : Square) (color : Option Color) :
    s.toggleSquare sq color =
      (if sq ∈ s.white then .ok { s with white := bbToggle s.white sq }
      else if sq ∈ s.black then .ok { s with black := bbToggle s.black sq }
      else match color with
        | some Color.white => .ok { s with white := bbToggle s.white sq }
        | some Color.black => .ok { s with black := bbToggle s.black sq }
        | none => .error (.missingColor (squareToString sq))) := by
  unfold ScriptedSensor.toggleSquare
  by_cases hw : sq ∈ s.white
  · rw [if_pos hw, if_pos hw]
    rfl
  · rw [if_neg hw, if_neg hw]
    by_cases hb : sq ∈ s.black
    · rw [if_pos hb, if_pos hb]
      rfl
    · rw [if_neg hb, if_neg hb]
      rcases color with _ | col
      · rfl
      · rcases col <;> rfl

/-- C8: the harness script interface fails exactly per its error taxonomy.
`push_script` fails, necessarily with `InvalidSquare`, precisely when the
script contains a token that does not parse as a square after stripping the
optional `W`/`B` color marker; toggling a square that is empty in both color
bitboards with no color fails with `MissingColor` (and executing such a batch
surfaces it from `tick`); and `check_overlap` — hence constructing or loading
the sensor — fails with `OverlappingSquares` exactly when the white and black
bitboards share a square. -/
theorem script_error_taxonomy :
    (∀ (sen : ScriptedSensor) (script : String),
      ((∃ t, sen.pushScript script = .error (.invalidSquare t)) ↔
        ∃ tok ∈ tokenize script, isValidSquareToken tok = false) ∧
      (∀ e, sen.pushScript script = .error e → ∃ t, e = ParseError.invalidSquare t)) ∧
    (∀ (sen : ScriptedSensor) (sq : Square) (c : Option Color) (e : ParseError),
      sen.toggleSquare sq c = .error e ↔
        (c = none ∧ sq ∉ sen.white ∧ sq ∉ sen.black ∧
          e = ParseError.missingColor (squareToString sq))) ∧
    (∀ (sen : ScriptedSensor) (sq : Square) (rest : List (List BatchEntry)),
      sen.pending_batches = [(sq, none)] :: rest → sq ∉ sen.white → sq ∉ sen.black →
        sen.tick = .error (ParseError.missingColor (squareToString sq))) ∧
    (∀ (white black : Bitboard) (e : ParseError),
      checkOverlap white black = .error e ↔
        ((white ∩ black).Nonempty ∧
          e = ParseError.overlappingSquares (joinSquares (white ∩ black)))) ∧
    (∀ (white black : Bitboard) (e : ParseError),
      ScriptedSensor.fromBitboards white black = .error e ↔
        ((white ∩ black).Nonempty ∧
          e = ParseError.overlappingSquares (joinSquares (white ∩ black)))) ∧
    (∀ (sen : ScriptedSensor) (white black : Bitboard) (e : ParseError),
      sen.loadBitboards white black = .error e ↔
        ((white ∩ black).Nonempty ∧
          e = ParseError.overlappingSquares (joinSquares (white ∩ black)))) := by
  have hoverlap : ∀ (white black : Bitboard) (e : ParseError),
      checkOverlap white black = .error e ↔
        ((white ∩ black).Nonempty ∧
          e = ParseError.overlappingSquares (joinSquares (white ∩ black))) := by
    intro w b e
    show (if w ∩ b = ∅ then (Except.ok () : Except ParseError Unit)
        else Except.error (ParseError.overlappingSquares (joinSquares (w ∩ b))))
        = Except.error e ↔ _
    by_cases hov : w ∩ b = ∅
    · rw [if_pos hov]
      constructor
      · intro h
        exact Except.noConfusion h
      · rintro ⟨hne, _⟩
        rw [Finset.nonempty_iff_ne_empty] at hne
        exact absurd hov hne
    · rw [if_neg hov]
      constructor
      · intro h
        cases h
        exact ⟨Finset.nonempty_iff_ne_empty.mpr hov, rfl⟩
      · rintro ⟨_, rfl⟩
        rfl
  refine ⟨?_, ?_, ?_, hoverlap, ?_, ?_⟩
  · intro sen script
    constructor
    · constructor
      · rintro ⟨t, ht⟩
        have hr := (parseScript_error_iff script _).mp ((pushScript_error_iff sen script _).mp ht)
        have h := (runParse_error_iff_token script.toList [] [] [] []
          (by intro t ht'; exact absurd ht' (List.not_mem_nil t))).mp ⟨_, hr⟩
        rwa [runTok_eq]
      · intro h
        rw [runTok_eq] at h
        obtain ⟨e, he⟩ := (runParse_error_iff_token script.toList [] [] [] []
          (by intro t ht'; exact absurd ht' (List.not_mem_nil t))).mpr h
        obtain ⟨t, rfl⟩ := runParse_error_kind script.toList _ e he
        exact ⟨t, (pushScript_error_iff sen script _).mpr
          ((parseScript_error_iff script _).mpr he)⟩
    · intro e he
      exact runParse_error_kind script.toList _ e
        ((parseScript_error_iff script _).mp ((pushScript_error_iff sen script _).mp he))
  · intro sen sq c e
    rw [toggleSquare_eq]
    by_cases hw : sq ∈ sen.white
    · rw [if_pos hw]
      constructor
      · intro h
        exact Except.noConfusion h
      · rintro ⟨_, hnw, _⟩
        exact absurd hw hnw
    · rw [if_neg hw]
      by_cases hb : sq ∈ sen.black
      · rw [if_pos hb]
        constructor
        · intro h
          exact Except.noConfusion h
        · rintro ⟨_, _, hnb, _⟩
          exact absurd hb hnb
      · rw [if_neg hb]
        rcases c with _ | col
        · constructor
          · intro h
            cases h
            exact ⟨rfl, hw, hb, rfl⟩
          · rintro ⟨_, _, _, rfl⟩
            rfl
        · constructor
          · intro h
            rcases col <;> exact Except.noConfusion h
          · rintro ⟨hcn, _⟩
            exact Option.noConfusion hcn
  · intro sen sq rest hpend hw hb
    unfold ScriptedSensor.tick
    rw [hpend]
    have htog : ScriptedSensor.toggleSquare { sen with pending_batches := rest } sq none
        = .error (ParseError.missingColor (squareToString sq)) := by
      rw [toggleSquare_eq]
      rw [show ({ sen with pending_batches := rest } : ScriptedSensor).white = sen.white
          from rfl,
        show ({ sen with pending_batches := rest } : ScriptedSensor).black = sen.black
          from rfl,
        if_neg hw, if_neg hb]
    simp only [List.foldlM_cons, htog]
    rfl
  · intro w b e
    unfold ScriptedSensor.fromBitboards
    exact (except_bind_error_iff _ _ (fun _ => ⟨_, rfl⟩) e).trans (hoverlap w b e)
  · intro sen w b e
    unfold ScriptedSensor.loadBitboards
    exact (except_bind_error_iff _ _ (fun _ => ⟨_, rfl⟩) e).trans (hoverlap w b e)

/-- Witness for C8's batch-execution clause at a concrete sensor: toggling the
empty square e4 with no color makes `tick` fail with `MissingColor`. -/
theorem script_error_taxonomy_witness :
    (⟨∅, ∅, [[(sqE4, none)]]⟩ : ScriptedSensor).tick
      = .error (ParseError.missingColor (squareToString sqE4)) :=
  script_error_taxonomy.2.2.1 ⟨∅, ∅, [[(sqE4, none)]]⟩ sqE4 [] rfl
    (by decide) (by decide)
